import Mathlib

/-!
Shallow embedding of `src/simple-vector/simple_vector.h` (class `SimpleVector<Type>`
and its free comparison operators).

Representation choice: the backing `ArrayPtr<Type>` (declared in `array_ptr.h`,
an owning fixed-size buffer with `Get()` and an O(1) `swap`, per spec §4.1) is
not observable through any claim except via the logical element run `[0, size)`.
We therefore represent a `SimpleVector` by the list of its logically valid
elements (`items`, so `GetSize = items.length`, matching `size_`) together with
the `capacity_` field. Slots in `[size, capacity)` hold stale values that no
claimed observation reads, so they are not tracked.

C++ `size_t` is modelled as `Nat`: the only arithmetic is `+1`, `-1`, `*2` and
comparisons, and a `capacity_ * 2` overflow would require a vector of `2^63`
live elements, unreachable before allocation failure.

Operations whose C++ preconditions fail (out-of-bounds writes after the
capacity-0 swap branch when `size_ > 0`, `Insert`/`Erase` cursors outside the
valid range) are undefined behavior in the source; the model's value at such
arguments is only meaningful where the source is defined, and theorems carry
the corresponding well-formedness hypotheses.
-/

namespace SimpleVec

/-- State of a `SimpleVector<Type>`: the logically valid elements
`items_[0 .. size_)` and the `capacity_` field (`simple_vector.h:333-336`).
`size_` is `items.length`. -/
structure SimpleVector (α : Type) where
  items : List α
  capacity : Nat
deriving DecidableEq

/-- `GetSize()` (`simple_vector.h:149`). -/
def GetSize (v : SimpleVector α) : Nat :=
  v.items.length

/-- `GetCapacity()` (`simple_vector.h:154`). -/
def GetCapacity (v : SimpleVector α) : Nat :=
  v.capacity

/-- The documented state invariant: `0 ≤ size ≤ capacity` (`0 ≤` is vacuous
for `Nat`, as for `size_t`). -/
def WF (v : SimpleVector α) : Prop :=
  GetSize v ≤ GetCapacity v

instance (v : SimpleVector α) : Decidable (WF v) := by
  unfold WF; infer_instance

/-- `SimpleVector()` — default constructor: `size_ = 0`, `capacity_ = 0`,
null buffer (`simple_vector.h:33`). -/
def defaultVector : SimpleVector α :=
  { items := [], capacity := 0 }

/-- `SimpleVector(size_t size)`: `size` slots filled with `Type{}`
(`simple_vector.h:36-38`). -/
def ofCount [Inhabited α] (n : Nat) : SimpleVector α :=
  { items := List.replicate n default, capacity := n }

/-- `SimpleVector(size_t size, const Type& value)` (`simple_vector.h:41-43`). -/
def ofCountValue (n : Nat) (x : α) : SimpleVector α :=
  { items := List.replicate n x, capacity := n }

/-- `SimpleVector(std::initializer_list<Type>)` (`simple_vector.h:46-48`). -/
def ofList (l : List α) : SimpleVector α :=
  { items := l, capacity := l.length }

/-- `SimpleVector(const SimpleVector& other)` (`simple_vector.h:51-53`):
allocates `other.capacity_` slots, copies the `other.size_` live elements,
initializes `size_` — but never assigns `capacity_`, which keeps its default
member initializer `0` (`simple_vector.h:336`). -/
def CopyCtor (v : SimpleVector α) : SimpleVector α :=
  { items := v.items, capacity := 0 }

/-- `swap(SimpleVector&)` (`simple_vector.h:321-325`): exchanges buffer,
`size_` and `capacity_`; returns the pair (new this, new other). -/
def swap (a b : SimpleVector α) : SimpleVector α × SimpleVector α :=
  (b, a)

/-- `SimpleVector(SimpleVector&& other)` (`simple_vector.h:59-61`): the
destination is default-initialized, then `swap(other)`; returns
(destination, source after the move). -/
def MoveCtor (v : SimpleVector α) : SimpleVector α × SimpleVector α :=
  swap defaultVector v

/-- `operator[]` (`simple_vector.h:72-81`): unchecked access to
`items_[index]` (debug `assert(index < size_)`; out of bounds is UB, modelled
by the `default` fallback of `getD`). -/
def GetUnchecked [Inhabited α] (v : SimpleVector α) (i : Nat) : α :=
  v.items.getD i default

/-- `At(size_t index)` (`simple_vector.h:121-124`): throws
`std::out_of_range("Index is out of range")` when `index >= size_`, otherwise
returns `items_[index]`. The throw is modelled as `Except.error` carrying the
message; the receiver is untouched (the model is a pure function of `v`). -/
def At (v : SimpleVector α) (i : Nat) : Except String α :=
  if h : i ≥ v.items.length then
    Except.error "Index is out of range"
  else
    Except.ok (v.items.get ⟨i, Nat.lt_of_not_le h⟩)

/-- `Clear()` (`simple_vector.h:134-136`): `size_ = 0`, capacity kept. -/
def Clear (v : SimpleVector α) : SimpleVector α :=
  { items := [], capacity := v.capacity }

/-- `IsEmpty()` (`simple_vector.h:221-223`): `size_ == 0 ? true : false`. -/
def IsEmpty (v : SimpleVector α) : Bool :=
  if v.items.length = 0 then true else false

/-- `PopBack()` (`simple_vector.h:226-230`): `--size_` when `size_ > 0`,
no-op otherwise. Dropping the last live element is `dropLast`. -/
def PopBack (v : SimpleVector α) : SimpleVector α :=
  if v.items.length > 0 then
    { items := v.items.dropLast, capacity := v.capacity }
  else
    v

/-- `PushBack(const Type&)` / `PushBack(Type&&)` (`simple_vector.h:234-272`,
identical except copy vs. move of elements): first the growth step —
no-op when `size_ < capacity_`; when `capacity_ == 0`, swap in a fresh 1-slot
buffer (the old, element-free under the invariant, buffer is dropped) and set
`capacity_` to 1; otherwise copy the live elements into a `capacity_ * 2`
buffer — then `items_[size_] = item; ++size_`, i.e. append. -/
def PushBack (v : SimpleVector α) (x : α) : SimpleVector α :=
  let grown : SimpleVector α :=
    if v.items.length < v.capacity then v
    else if v.capacity = 0 then { items := [], capacity := 1 }
    else { items := v.items, capacity := v.capacity * 2 }
  { items := grown.items ++ [x], capacity := grown.capacity }

/-- `Insert(pos, value)` (`simple_vector.h:162-218`, copy and move overloads
are identical up to copy vs. move): `index = pos - begin()` is `k`.
When `capacity_ == 0`: swap in a fresh 1-slot buffer and write the value at
index 0 (under the invariant the vector was empty and `k = 0`).
When `size_ < capacity_`: shift `[k, size)` one slot right in place and write
at `k`. Otherwise: copy `[0, k)` and `[k, size)` (offset by one) into a
`capacity_ * 2` buffer, write at `k`, double `capacity_`. In all branches
`++size_`. The returned iterator `&items_[index]` denotes position `k` in the
result. -/
def Insert (v : SimpleVector α) (k : Nat) (x : α) : SimpleVector α :=
  if v.capacity = 0 then
    { items := [x], capacity := 1 }
  else if v.items.length < v.capacity then
    { items := v.items.take k ++ [x] ++ v.items.drop k, capacity := v.capacity }
  else
    { items := v.items.take k ++ [x] ++ v.items.drop k, capacity := v.capacity * 2 }

/-- `Erase(pos)` (`simple_vector.h:139-146`): `index = pos - cbegin()` is `k`;
`std::move(begin()+k+1, end(), begin()+k)` shifts the tail left, `--size_`.
The live run becomes `take k ++ drop (k+1)` (the stale last slot is not
tracked). Returns position `k`. -/
def Erase (v : SimpleVector α) (k : Nat) : SimpleVector α :=
  { items := v.items.take k ++ v.items.drop (k + 1), capacity := v.capacity }

/-- `Reserve(size_t new_capacity)` (`simple_vector.h:274-281`): when
`new_capacity > capacity_`, copy the live elements into a `new_capacity`
buffer and set `capacity_`; otherwise no-op. -/
def Reserve (v : SimpleVector α) (n : Nat) : SimpleVector α :=
  if n > v.capacity then { items := v.items, capacity := n } else v

/-- `SimpleVector(ReserveProxyObj)` (`simple_vector.h:55-57`): default-init
then `Reserve(obj.GetCapacity())` (unqualified `Reserve` resolves to the
member function). -/
def ofReserveProxy (n : Nat) : SimpleVector α :=
  Reserve defaultVector n

/-- `Resize(size_t new_size)` (`simple_vector.h:285-318`). Branches in source
order: `new_size ≤ size_` truncates; `new_size ≤ capacity_` default-fills
`[size, new_size)` in place; otherwise a new buffer of `new_size` slots (when
`new_size > capacity_ * 2`) or `capacity_ * 2` slots receives the moved live
elements and default-filled `[size, new_size)` slots. `Type{}` is `default`. -/
def Resize [Inhabited α] (v : SimpleVector α) (n : Nat) : SimpleVector α :=
  if n ≤ v.items.length then
    { items := v.items.take n, capacity := v.capacity }
  else if n ≤ v.capacity then
    { items := v.items ++ List.replicate (n - v.items.length) default,
      capacity := v.capacity }
  else if n > v.capacity * 2 then
    { items := v.items ++ List.replicate (n - v.items.length) default,
      capacity := n }
  else
    { items := v.items ++ List.replicate (n - v.items.length) default,
      capacity := v.capacity * 2 }

/-- `PushBack` folded over a list of values, starting from the default
constructor: the program `SimpleVector<T> v; for (x : xs) v.PushBack(x);`. -/
def pushAll (xs : List α) : SimpleVector α :=
  xs.foldl PushBack defaultVector

/-- `PopBack` iterated `n` times. -/
def popN : Nat → SimpleVector α → SimpleVector α
  | 0, v => v
  | n + 1, v => popN n (PopBack v)

/-- `std::equal(lhs.begin(), lhs.end(), rhs.begin())` as used by `operator==`
(`simple_vector.h:343`): element-wise comparison driven by the first range
(only reached when the sizes are equal, so the second range never runs out;
the `[a :: as, []]` case would be UB in C++ and is never hit). -/
def stdEqual [DecidableEq α] : List α → List α → Bool
  | [], _ => true
  | _ :: _, [] => false
  | a :: as, b :: bs => decide (a = b) && stdEqual as bs

/-- `operator==` (`simple_vector.h:340-344`): `false` on size mismatch, else
`std::equal` over the elements. -/
def vecEq [DecidableEq α] (l r : SimpleVector α) : Bool :=
  if GetSize l ≠ GetSize r then false
  else stdEqual l.items r.items

/-- `operator!=` (`simple_vector.h:347-349`): `!(lhs == rhs)`. -/
def vecNe [DecidableEq α] (l r : SimpleVector α) : Bool :=
  !vecEq l r

/-- `std::lexicographical_compare(l.begin(), l.end(), r.begin(), r.end())`
with the element type's `<`: walk both ranges; `*f1 < *f2` decides true,
`*f2 < *f1` decides false, else advance; at a range end, true iff the first
range ended and the second did not. -/
def lexCompare [LinearOrder α] : List α → List α → Bool
  | _, [] => false
  | [], _ :: _ => true
  | a :: as, b :: bs =>
    if a < b then true
    else if b < a then false
    else lexCompare as bs

/-- `operator<` (`simple_vector.h:352-354`). -/
def vecLt [LinearOrder α] (l r : SimpleVector α) : Bool :=
  lexCompare l.items r.items

/-- `operator<=` (`simple_vector.h:357-359`): `lhs < rhs || lhs == rhs`. -/
def vecLe [LinearOrder α] [DecidableEq α] (l r : SimpleVector α) : Bool :=
  vecLt l r || vecEq l r

/-- `operator>` (`simple_vector.h:362-364`): `rhs < lhs`. -/
def vecGt [LinearOrder α] (l r : SimpleVector α) : Bool :=
  vecLt r l

/-- `operator>=` (`simple_vector.h:367-369`): `!(lhs < rhs)`. -/
def vecGe [LinearOrder α] (l r : SimpleVector α) : Bool :=
  !vecLt l r

end SimpleVec

namespace SimpleVec

/-! ### Helper lemmas -/

theorem PushBack_items {v : SimpleVector α} (hwf : WF v) (x : α) :
    (PushBack v x).items = v.items ++ [x] := by
  unfold PushBack
  by_cases h1 : v.items.length < v.capacity
  · simp [h1]
  · by_cases h2 : v.capacity = 0
    · have hnil : v.items = [] := by
        unfold WF GetSize GetCapacity at hwf
        rw [h2] at hwf
        exact List.eq_nil_of_length_eq_zero (Nat.le_zero.mp hwf)
      simp [h1, h2, hnil]
    · simp [h1, h2]

theorem WF_PushBack {v : SimpleVector α} (hwf : WF v) (x : α) :
    WF (PushBack v x) := by
  unfold WF GetSize GetCapacity at *
  unfold PushBack
  by_cases h1 : v.items.length < v.capacity
  · simp [h1]; omega
  · by_cases h2 : v.capacity = 0
    · have hnil : v.items = [] := by
        rw [h2] at hwf
        exact List.eq_nil_of_length_eq_zero (Nat.le_zero.mp hwf)
      simp [h1, h2, hnil]
    · simp [h1, h2]; omega

theorem foldl_PushBack_spec (xs : List α) :
    ∀ v : SimpleVector α, WF v →
      (xs.foldl PushBack v).items = v.items ++ xs ∧ WF (xs.foldl PushBack v) := by
  induction xs with
  | nil => intro v hv; simpa using hv
  | cons x xs ih =>
    intro v hv
    have h1 := PushBack_items hv x
    have h2 := WF_PushBack hv x
    have h3 := ih (PushBack v x) h2
    simp only [List.foldl_cons]
    refine ⟨?_, h3.2⟩
    rw [h3.1, h1, List.append_assoc]
    rfl

theorem pushAll_items (xs : List α) : (pushAll xs).items = xs := by
  have h := foldl_PushBack_spec xs defaultVector (by unfold WF GetSize GetCapacity defaultVector; simp)
  simpa [pushAll, defaultVector] using h.1

end SimpleVec

namespace SimpleVec

theorem insert_then_erase_list (l : List α) (k : Nat) (x : α) (hk : k ≤ l.length) :
    (l.take k ++ [x] ++ l.drop k).take k ++ (l.take k ++ [x] ++ l.drop k).drop (k + 1)
      = l := by
  have h1 : (l.take k).length = k := by
    simp [List.length_take]; omega
  have ht : (l.take k ++ [x] ++ l.drop k).take k = l.take k := by
    rw [List.append_assoc]
    exact List.take_left' h1
  have h2 : (l.take k ++ [x]).length = k + 1 := by simp [h1]
  have hd : (l.take k ++ [x] ++ l.drop k).drop (k + 1) = l.drop k :=
    List.drop_left' h2
  rw [ht, hd, List.take_append_drop]

theorem popN_spec (k : Nat) :
    ∀ v : SimpleVector α, k ≤ GetSize v →
      (popN k v).items = v.items.take (v.items.length - k) ∧
      (popN k v).capacity = v.capacity := by
  induction k with
  | zero =>
    intro v _
    simp [popN, List.take_length]
  | succ k ih =>
    intro v hk
    unfold GetSize at hk
    have hpos : 0 < v.items.length := by omega
    have hpb : PopBack v = { items := v.items.dropLast, capacity := v.capacity } := by
      unfold PopBack
      rw [if_pos hpos]
    have hstep : popN (k + 1) v = popN k (PopBack v) := rfl
    have hlen : v.items.dropLast.length = v.items.length - 1 :=
      List.length_dropLast _
    have hih := ih { items := v.items.dropLast, capacity := v.capacity }
      (by unfold GetSize; simp only [hlen]; omega)
    rw [hstep, hpb]
    refine ⟨?_, hih.2⟩
    rw [hih.1]
    simp only [hlen]
    rw [List.dropLast_eq_take, List.take_take]
    congr 1
    omega

theorem stdEqual_eq_true_iff [DecidableEq α] :
    ∀ as bs : List α, as.length = bs.length → (stdEqual as bs = true ↔ as = bs)
  | [], [] => by simp [stdEqual]
  | [], _ :: _ => by intro h; simp at h
  | _ :: _, [] => by intro h; simp at h
  | a :: as, b :: bs => by
    intro h
    simp only [stdEqual, Bool.and_eq_true, decide_eq_true_eq]
    rw [stdEqual_eq_true_iff as bs (by simpa using h)]
    constructor
    · rintro ⟨rfl, rfl⟩; rfl
    · intro h1
      injection h1 with h1 h2
      exact ⟨h1, h2⟩

theorem vecEq_eq_true_iff [DecidableEq α] (l r : SimpleVector α) :
    vecEq l r = true ↔ l.items = r.items := by
  unfold vecEq
  by_cases h : GetSize l ≠ GetSize r
  · rw [if_pos h]
    simp only [Bool.false_eq_true, false_iff]
    intro he
    exact h (by unfold GetSize; rw [he])
  · rw [if_neg h]
    push_neg at h
    exact stdEqual_eq_true_iff _ _ h

theorem lexCompare_eq_true_iff [LinearOrder α] :
    ∀ as bs : List α, (lexCompare as bs = true ↔ List.Lex (· < ·) as bs)
  | [], [] => by simp [lexCompare]
  | _ :: _, [] => by simp [lexCompare]
  | [], _ :: _ => by
    simp only [lexCompare, true_iff]
    exact List.Lex.nil
  | a :: as, b :: bs => by
    simp only [lexCompare]
    by_cases h1 : a < b
    · simp only [h1, if_true, true_iff]
      exact List.Lex.rel h1
    · by_cases h2 : b < a
      · simp only [h1, h2, if_false, if_true, Bool.false_eq_true, false_iff]
        intro hlex
        cases hlex with
        | cons h => exact absurd h2 (lt_irrefl a)
        | rel h => exact absurd h h1
      · have hab : a = b := le_antisymm (not_lt.mp h2) (not_lt.mp h1)
        subst hab
        simp only [h1, h2, if_false]
        rw [lexCompare_eq_true_iff as bs]
        exact List.Lex.cons_iff.symm

end SimpleVec

namespace SimpleVec

/-! ### Claim theorems -/

/-- C1 (violated by the code): the invariant `0 ≤ GetSize ≤ GetCapacity` is
claimed to hold after every public operation, copy construction included; but
copy-constructing from the one-element vector produced by a single `PushBack`
on a default-constructed vector yields `GetSize = 1` and `GetCapacity = 0`,
because the copy constructor never assigns `capacity_`
(`simple_vector.h:51-53`, default member initializer at line 336). -/
theorem copy_breaks_size_le_capacity :
    GetSize (CopyCtor (PushBack (defaultVector : SimpleVector Nat) 0)) = 1 ∧
    GetCapacity (CopyCtor (PushBack (defaultVector : SimpleVector Nat) 0)) = 0 ∧
    ¬ WF (CopyCtor (PushBack (defaultVector : SimpleVector Nat) 0)) := by
  decide

/-- C2: pushing the values `xs` in order via `PushBack` into a
default-constructed vector yields `GetSize = xs.length`, and for every
`i < xs.length` the element at index `i` is the `i`-th pushed value. -/
theorem pushBack_sequence_spec (xs : List α) :
    GetSize (pushAll xs) = xs.length ∧
    ∀ i, i < xs.length → (pushAll xs).items.get? i = xs.get? i := by
  have h := pushAll_items xs
  constructor
  · unfold GetSize
    rw [h]
  · intro i _
    rw [h]

theorem pushBack_sequence_spec_witness :
    GetSize (pushAll ([10, 20, 30] : List Nat)) = 3 ∧
    (pushAll ([10, 20, 30] : List Nat)).items.get? 1 = some 20 := by
  have h := pushBack_sequence_spec ([10, 20, 30] : List Nat)
  refine ⟨h.1, ?_⟩
  rw [h.2 1 (by decide)]
  rfl

/-- C3: after any `PushBack` on a well-formed vector, capacity ≥ size; a
`PushBack` on a full vector (`size = capacity`) with capacity `C > 0` yields
capacity exactly `2 * C`; a `PushBack` with capacity `0` yields capacity
exactly `1`. -/
theorem pushBack_capacity_spec (v : SimpleVector α) (x : α) (hwf : WF v) :
    GetSize (PushBack v x) ≤ GetCapacity (PushBack v x) ∧
    (GetSize v = GetCapacity v → 0 < GetCapacity v →
      GetCapacity (PushBack v x) = 2 * GetCapacity v) ∧
    (GetCapacity v = 0 → GetCapacity (PushBack v x) = 1) := by
  refine ⟨WF_PushBack hwf x, ?_, ?_⟩
  · intro hfull hpos
    unfold GetSize GetCapacity at *
    unfold PushBack
    have h1 : ¬ v.items.length < v.capacity := by omega
    have h2 : ¬ v.capacity = 0 := by omega
    simp only [h1, h2, if_false]
    omega
  · intro h0
    unfold GetCapacity at *
    unfold PushBack
    have h1 : ¬ v.items.length < v.capacity := by omega
    simp only [h1, h0, if_false, if_true]
    rw [if_neg (by omega)]

theorem pushBack_capacity_spec_witness :
    GetCapacity (PushBack (PushBack (defaultVector : SimpleVector Nat) 1) 2) = 2 ∧
    GetCapacity (PushBack (defaultVector : SimpleVector Nat) 1) = 1 := by
  constructor
  · exact (pushBack_capacity_spec (PushBack (defaultVector : SimpleVector Nat) 1) 2
      (by decide)).2.1 (by decide) (by decide)
  · exact (pushBack_capacity_spec (defaultVector : SimpleVector Nat) 1
      (by decide)).2.2 (by decide)

/-- C9: move construction from a non-empty vector gives a destination holding
exactly the original elements in order, with the original size and capacity,
and leaves the source with `GetSize = 0`. -/
theorem move_ctor_spec (v : SimpleVector α) (_hne : GetSize v ≠ 0) :
    (MoveCtor v).1.items = v.items ∧
    GetSize (MoveCtor v).1 = GetSize v ∧
    GetCapacity (MoveCtor v).1 = GetCapacity v ∧
    GetSize (MoveCtor v).2 = 0 :=
  ⟨rfl, rfl, rfl, rfl⟩

theorem move_ctor_spec_witness :
    (MoveCtor (ofList ([4] : List Nat))).1.items = [4] ∧
    GetSize (MoveCtor (ofList ([4] : List Nat))).2 = 0 := by
  have h := move_ctor_spec (ofList ([4] : List Nat)) (by decide)
  exact ⟨h.1, h.2.2.2⟩

/-- C10: the copy-constructed vector has the same size as the source and
element-wise equal contents, but `GetCapacity = 0` regardless of the source's
capacity, because the copy constructor never assigns `capacity_`. -/
theorem copy_ctor_capacity_zero (v : SimpleVector α) :
    GetSize (CopyCtor v) = GetSize v ∧
    (CopyCtor v).items = v.items ∧
    GetCapacity (CopyCtor v) = 0 :=
  ⟨rfl, rfl, rfl⟩

end SimpleVec

namespace SimpleVec

/-- C4: for a well-formed vector and any valid insertion index `k ≤ GetSize`,
erasing at the position returned by `Insert` (which is index `k`) restores the
original element sequence: same size, same elements in order. -/
theorem insert_erase_roundtrip (v : SimpleVector α) (k : Nat) (x : α)
    (hwf : WF v) (hk : k ≤ GetSize v) :
    (Erase (Insert v k x) k).items = v.items ∧
    GetSize (Erase (Insert v k x) k) = GetSize v := by
  have main : (Erase (Insert v k x) k).items = v.items := by
    unfold Insert
    unfold GetSize at hk
    by_cases h0 : v.capacity = 0
    · have hnil : v.items = [] := by
        unfold WF GetSize GetCapacity at hwf
        rw [h0] at hwf
        exact List.eq_nil_of_length_eq_zero (Nat.le_zero.mp hwf)
      have hk0 : k = 0 := by
        rw [hnil] at hk
        simpa using hk
      subst hk0
      rw [if_pos h0]
      simp [Erase, hnil]
    · rw [if_neg h0]
      by_cases h1 : v.items.length < v.capacity
      · rw [if_pos h1]
        simpa [Erase] using insert_then_erase_list v.items k x hk
      · rw [if_neg h1]
        simpa [Erase] using insert_then_erase_list v.items k x hk
  exact ⟨main, by unfold GetSize; rw [main]⟩

theorem insert_erase_roundtrip_witness :
    (Erase (Insert (ofList ([1, 2] : List Nat)) 1 9) 1).items = [1, 2] ∧
    GetSize (Erase (Insert (ofList ([1, 2] : List Nat)) 1 9) 1) = 2 := by
  have h := insert_erase_roundtrip (ofList ([1, 2] : List Nat)) 1 9
    (by decide) (by decide)
  exact ⟨h.1, h.2⟩

/-- C5: `At index` yields the out-of-range error exactly when
`index ≥ GetSize` (so in particular at `index = GetSize`, also on an empty
vector), and otherwise returns the same element as unchecked access. `At` is
a pure function of the vector, so a failing call leaves it unchanged. -/
theorem at_checked_access_spec [Inhabited α] (v : SimpleVector α) :
    (∀ i, At v i = Except.error "Index is out of range" ↔ GetSize v ≤ i) ∧
    (∀ i, i < GetSize v → At v i = Except.ok (GetUnchecked v i)) ∧
    At v (GetSize v) = Except.error "Index is out of range" := by
  refine ⟨?_, ?_, ?_⟩
  · intro i
    unfold At GetSize
    by_cases h : i ≥ v.items.length
    · simp [h]
    · simp [h]
  · intro i hi
    unfold GetSize at hi
    unfold At GetUnchecked
    rw [dif_neg (by omega)]
    congr 1
    rw [List.getD_eq_getElem _ _ hi, List.get_eq_getElem]
  · unfold At GetSize
    rw [dif_pos (le_refl _)]

theorem at_checked_access_spec_witness :
    At (ofList ([5] : List Nat)) 0 = Except.ok 5 ∧
    At (ofList ([5] : List Nat)) 1 = Except.error "Index is out of range" := by
  have h := at_checked_access_spec (ofList ([5] : List Nat))
  exact ⟨h.2.1 0 (by decide), (h.1 1).mpr (by decide)⟩

/-- C6: on a well-formed vector of size `s`, `Resize n` with `n` above the
capacity `c` sets the capacity to `max n (2 * c)`, keeps the first `s`
elements unchanged in order, fills indices `[s, n)` with the element type's
default value, and sets the size to `n`. -/
theorem resize_growth_spec [Inhabited α] (v : SimpleVector α) (n : Nat)
    (hwf : WF v) (hn : GetCapacity v < n) :
    GetSize (Resize v n) = n ∧
    (Resize v n).items = v.items ++ List.replicate (n - GetSize v) default ∧
    GetCapacity (Resize v n) = max n (2 * GetCapacity v) := by
  unfold WF GetSize GetCapacity at *
  have h1 : ¬ n ≤ v.items.length := by omega
  have h2 : ¬ n ≤ v.capacity := by omega
  unfold Resize
  rw [if_neg h1, if_neg h2]
  by_cases h3 : n > v.capacity * 2
  · rw [if_pos h3]
    refine ⟨?_, rfl, ?_⟩
    · dsimp only
      simp only [List.length_append, List.length_replicate]
      omega
    · dsimp only
      omega
  · rw [if_neg h3]
    refine ⟨?_, rfl, ?_⟩
    · dsimp only
      simp only [List.length_append, List.length_replicate]
      omega
    · dsimp only
      omega

theorem resize_growth_spec_witness :
    GetSize (Resize (ofList ([7] : List Nat)) 3) = 3 ∧
    (Resize (ofList ([7] : List Nat)) 3).items = [7, 0, 0] ∧
    GetCapacity (Resize (ofList ([7] : List Nat)) 3) = 3 := by
  have h := resize_growth_spec (ofList ([7] : List Nat)) 3 (by decide) (by decide)
  refine ⟨h.1, ?_, ?_⟩
  · rw [h.2.1]
    rfl
  · rw [h.2.2]
    decide

end SimpleVec

namespace SimpleVec

/-- C7 as stated is false on the code: for the vector `[1, 2, 3]` (size 3)
and `n = 1 < 3`, `Resize 1` yields the sequence `[1]`, while `n = 1` call to
`PopBack` yields `[1, 2]` — so `Resize n` is not equivalent to `n` calls to
`PopBack`. -/
theorem resize_popN_counterexample :
    1 < GetSize (pushAll ([1, 2, 3] : List Nat)) ∧
    (Resize (pushAll ([1, 2, 3] : List Nat)) 1).items
      ≠ (popN 1 (pushAll ([1, 2, 3] : List Nat))).items := by
  decide

/-- C7 (amended): for `n < GetSize v`, `Resize n` is equivalent to
`GetSize v - n` (not `n`) calls to `PopBack` in terms of the resulting
visible element sequence; it truncates to size `n` and retains the
capacity. -/
theorem resize_truncate_spec [Inhabited α] (v : SimpleVector α) (n : Nat)
    (hn : n < GetSize v) :
    (Resize v n).items = (popN (GetSize v - n) v).items ∧
    GetSize (Resize v n) = n ∧
    GetCapacity (Resize v n) = GetCapacity v := by
  unfold GetSize GetCapacity at *
  have hres : Resize v n = { items := v.items.take n, capacity := v.capacity } := by
    unfold Resize
    rw [if_pos (by omega)]
  have hpop := popN_spec (v.items.length - n) v (by unfold GetSize; omega)
  rw [hres]
  refine ⟨?_, ?_, rfl⟩
  · rw [hpop.1]
    dsimp only
    congr 1
    omega
  · dsimp only
    simp only [List.length_take]
    omega

theorem resize_truncate_spec_witness :
    (Resize (ofList ([1, 2, 3] : List Nat)) 1).items
      = (popN 2 (ofList ([1, 2, 3] : List Nat))).items ∧
    GetSize (Resize (ofList ([1, 2, 3] : List Nat)) 1) = 1 ∧
    GetCapacity (Resize (ofList ([1, 2, 3] : List Nat)) 1) = 3 := by
  have h := resize_truncate_spec (ofList ([1, 2, 3] : List Nat)) 1 (by decide)
  exact ⟨h.1, h.2.1, h.2.2⟩

/-- C8: `operator==` is true iff the sizes are equal and the elements are
pairwise equal in order; `operator<` implements lexicographic ordering over
the element sequences via the element type's `<`; `!=`, `<=`, `>`, `>=` are
consistent with these two; and `{1,2,3} < {1,2,4}` and `{1,2} < {1,2,3}`. -/
theorem comparison_operators_spec [LinearOrder α] [DecidableEq α]
    (l r : SimpleVector α) :
    (vecEq l r = true ↔
      GetSize l = GetSize r ∧ ∀ i, l.items.get? i = r.items.get? i) ∧
    (vecLt l r = true ↔ List.Lex (· < ·) l.items r.items) ∧
    (vecNe l r = true ↔ ¬ l.items = r.items) ∧
    (vecLe l r = true ↔
      (List.Lex (· < ·) l.items r.items ∨ l.items = r.items)) ∧
    (vecGt l r = true ↔ List.Lex (· < ·) r.items l.items) ∧
    (vecGe l r = true ↔ ¬ List.Lex (· < ·) l.items r.items) ∧
    vecLt (ofList ([1, 2, 3] : List Nat)) (ofList ([1, 2, 4] : List Nat)) = true ∧
    vecLt (ofList ([1, 2] : List Nat)) (ofList ([1, 2, 3] : List Nat)) = true := by
  have heq : vecEq l r = true ↔ l.items = r.items := vecEq_eq_true_iff l r
  have hlt : vecLt l r = true ↔ List.Lex (· < ·) l.items r.items :=
    lexCompare_eq_true_iff l.items r.items
  refine ⟨?_, hlt, ?_, ?_, ?_, ?_, by decide, by decide⟩
  · rw [heq]
    constructor
    · intro h
      exact ⟨by unfold GetSize; rw [h], fun i => by rw [h]⟩
    · rintro ⟨-, h⟩
      exact List.ext_get?_iff.mpr h
  · simp only [vecNe, Bool.not_eq_true', Bool.eq_false_iff, ne_eq, heq]
  · unfold vecLe
    rw [Bool.or_eq_true, hlt, heq]
  · exact lexCompare_eq_true_iff r.items l.items
  · simp only [vecGe, Bool.not_eq_true', Bool.eq_false_iff, ne_eq, hlt]

end SimpleVec
